import Mathlib

/-!
Verification of the YOLO polygon-to-bounding-box converter
(`polygon_to_bbox.py`).

The embedding models Python floats by exact rationals (ℚ): every numeric
token appearing in the claims denotes a decimal literal, and the
arithmetic performed by the program (min, max, sums, halving,
differences) is exact on the rationals those literals denote.  A raised
and caught `ValueError` is modelled by `Option.none`.  The file system
touched by `convert_file` / `main` is modelled as a partial map from
path strings to file contents.

Modelling notes:
* `float(s)` is modelled for the decimal forms `[+-]? (d* '.' d* | d+)
  ([eE] [+-]? d+)?` (with at least one mantissa digit); the extra
  spellings Python also accepts (`inf`, `nan`, digit-group underscores)
  denote no rational and are outside the model.
* `f"{x:.6f}"` is modelled by exact decimal rounding (half to even) of
  the rational value to six fractional digits; IEEE-754 signed zero has
  no rational counterpart.
-/

namespace PolyBBox

/-- Numeric value of a list of decimal digit characters (most significant
first). -/
def natOfDigits (l : List Char) : Nat :=
  l.foldl (fun a c => 10 * a + (c.toNat - 48)) 0

/-- All characters are decimal digits. -/
def allDigits (l : List Char) : Bool :=
  l.all (fun c => c.isDigit)

/-- Strip one leading sign character; returns (isNegative, rest). -/
def stripSign : List Char → Bool × List Char
  | [] => (false, [])
  | c :: rest =>
      if c == '-' then (true, rest)
      else if c == '+' then (false, rest)
      else (false, c :: rest)

/-- Parse an unsigned decimal mantissa: `d+`, `d+ '.' d*`, or `d* '.' d+`. -/
def parseMantissa (cs : List Char) : Option ℚ :=
  let ip := cs.takeWhile (fun c => !(c == '.'))
  let rest := cs.dropWhile (fun c => !(c == '.'))
  match rest with
  | [] => if !ip.isEmpty && allDigits ip then some (natOfDigits ip : ℚ) else none
  | _ :: fp =>
      if allDigits ip && allDigits fp && !(ip.isEmpty && fp.isEmpty) then
        some ((natOfDigits ip : ℚ) + (natOfDigits fp : ℚ) / (10 : ℚ) ^ fp.length)
      else none

/-- Model of Python `float(token)` on a whitespace-free token, as an exact
rational: `some q` when the token is a decimal float literal denoting `q`,
`none` when `float` raises `ValueError`. -/
def pyFloat (s : String) : Option ℚ :=
  let (neg, cs) := stripSign s.data
  let mant := cs.takeWhile (fun c => !(c == 'e' || c == 'E'))
  let erest := cs.dropWhile (fun c => !(c == 'e' || c == 'E'))
  let val? : Option ℚ :=
    match erest with
    | [] => parseMantissa mant
    | _ :: ecs =>
        let (eneg, eds) := stripSign ecs
        if !eds.isEmpty && allDigits eds then
          (parseMantissa mant).map (fun m =>
            if eneg then m / (10 : ℚ) ^ natOfDigits eds
            else m * (10 : ℚ) ^ natOfDigits eds)
        else none
  val?.map (fun q => if neg then -q else q)

/-- Worker for `pySplit`: `cur` is the reversed current token. -/
def pySplitAux : List Char → List Char → List String
  | cur, [] => if cur.isEmpty then [] else [String.mk cur.reverse]
  | cur, c :: rest =>
      if c.isWhitespace then
        if cur.isEmpty then pySplitAux [] rest
        else String.mk cur.reverse :: pySplitAux [] rest
      else pySplitAux (c :: cur) rest

/-- Model of Python `str.split()` (no argument): maximal runs of
non-whitespace characters, in order. -/
def pySplit (s : String) : List String :=
  pySplitAux [] s.data

/-- Remove leading and trailing whitespace characters from a character list. -/
def stripList (cs : List Char) : List Char :=
  ((cs.dropWhile Char.isWhitespace).reverse.dropWhile Char.isWhitespace).reverse

/-- Model of Python `str.strip()` (no argument). -/
def pyStrip (s : String) : String :=
  String.mk (stripList s.data)

/-- Decimal digit characters of `n` (most significant first); `fuel`
bounds the recursion and any `fuel ≥` number of digits is enough. -/
def natDigitsAux : Nat → Nat → List Char
  | 0, _ => []
  | _ + 1, 0 => []
  | f + 1, n + 1 => natDigitsAux f ((n + 1) / 10) ++ [Char.ofNat (48 + (n + 1) % 10)]

/-- Decimal rendering of a natural number. -/
def natToString (n : Nat) : String :=
  if n = 0 then "0" else String.mk (natDigitsAux n n)

/-- Left-pad a string with `'0'` to length `k`. -/
def padZeros (k : Nat) (s : String) : String :=
  String.mk (List.replicate (k - s.length) '0') ++ s

/-- Round `q * 10^6` to an integer, ties to even (the rounding used when
formatting with six fractional digits). -/
def round6 (q : ℚ) : ℤ :=
  let t : ℚ := q * 1000000
  let n : ℤ := ⌊t⌋
  let r : ℚ := t - (n : ℚ)
  if r < 1 / 2 then n
  else if 1 / 2 < r then n + 1
  else if n % 2 = 0 then n else n + 1

/-- Model of Python `f"{q:.6f}"` on the exact rational value `q`. -/
def fmt6 (q : ℚ) : String :=
  let sign := if q < 0 then "-" else ""
  let n := (round6 |q|).natAbs
  sign ++ natToString (n / 1000000) ++ "." ++ padZeros 6 (natToString (n % 1000000))

/-- Elements at even indices 0, 2, 4, …: the list
`[coords[i] for i in range(0, len(coords), 2)]`. -/
def evens : List α → List α
  | [] => []
  | [a] => [a]
  | a :: _ :: rest => a :: evens rest

/-- Elements at odd indices 1, 3, 5, …: the list
`[coords[i] for i in range(1, len(coords), 2)]`. -/
def odds : List α → List α
  | [] => []
  | [_] => []
  | _ :: b :: rest => b :: odds rest

/-- `[float(c) for c in l]`: parses every token, `none` as soon as one
token raises `ValueError`. -/
def mapFloat : List String → Option (List ℚ)
  | [] => some []
  | t :: rest =>
      match pyFloat t with
      | none => none
      | some q =>
        match mapFloat rest with
        | none => none
        | some qs => some (q :: qs)

/-- Python `min` over a list of rationals (`none` on the empty list, where
`min` raises). -/
def listMin : List ℚ → Option ℚ
  | [] => none
  | a :: rest => some (rest.foldl min a)

/-- Python `max` over a list of rationals. -/
def listMax : List ℚ → Option ℚ
  | [] => none
  | a :: rest => some (rest.foldl max a)

/-- The reducer `polygon_to_bbox(polygon_coords)`: `none` models a raised
`ValueError` (fewer than 6 coordinates, or a coordinate token that
`float` rejects); otherwise
`(center_x, center_y, width, height)` from the min/max extents of the
even-indexed (x) and odd-indexed (y) coordinate values. -/
def polygon_to_bbox (polygon_coords : List String) : Option (ℚ × ℚ × ℚ × ℚ) :=
  if polygon_coords.length < 6 then none
  else
    match mapFloat (evens polygon_coords) with
    | none => none
    | some x_coords =>
      match mapFloat (odds polygon_coords) with
      | none => none
      | some y_coords =>
        match listMin x_coords, listMax x_coords, listMin y_coords, listMax y_coords with
        | some min_x, some max_x, some min_y, some max_y =>
            some ((min_x + max_x) / 2, (min_y + max_y) / 2,
                  max_x - min_x, max_y - min_y)
        | _, _, _, _ => none

/-- The output f-string
`f"{class_id} {cx:.6f} {cy:.6f} {w:.6f} {h:.6f}"`. -/
def formatRecord (class_id : String) (b : ℚ × ℚ × ℚ × ℚ) : String :=
  class_id ++ " " ++ fmt6 b.1 ++ " " ++ fmt6 b.2.1 ++ " " ++
    fmt6 b.2.2.1 ++ " " ++ fmt6 b.2.2.2

/-- `process_line(line)`: `none` is the skip signal (the function printed
a warning and returned `None`); `some out` is the transcoded line. -/
def process_line (line : String) : Option String :=
  let parts := pySplit (pyStrip line)
  if parts.length < 7 then none
  else
    match parts with
    | [] => none
    | class_id :: polygon_coords =>
        match polygon_to_bbox polygon_coords with
        | some b => some (formatRecord class_id b)
        | none => none

/-- One iteration of the loop in `convert_file`: state is
(converted lines so far, skip count, warning-diagnostic count).  A
warning is printed by `process_line` exactly when it returns `None`. -/
def convertStep (st : List String × Nat × Nat) (line : String) :
    List String × Nat × Nat :=
  let l := pyStrip line
  if l.isEmpty then st
  else
    match process_line l with
    | some out => (st.1 ++ [out], st.2.1, st.2.2)
    | none => (st.1, st.2.1 + 1, st.2.2 + 1)

/-- The per-line loop of `convert_file` over the input lines. -/
def convertLines (lines : List String) : List String × Nat × Nat :=
  lines.foldl convertStep ([], 0, 0)

/-- Split file contents into lines (the lines `readlines` yields, with
their terminators stripped; a trailing empty piece is blank and skipped). -/
def splitLines (content : String) : List String :=
  content.split (fun c => c == '\n')

/-- Join output records, one per line, each with a trailing newline. -/
def unlines (ls : List String) : String :=
  String.join (ls.map (fun l => l ++ "\n"))

/-- `convert_file(input_file, output_file)` over a file system modelled as
a partial map from paths to contents.  `Except.error` models the raised
`FileNotFoundError`; on success the result is the updated file system
together with (converted count, skipped count). -/
def convert_file (fs : String → Option String) (input_file output_file : String) :
    Except String ((String → Option String) × Nat × Nat) :=
  match fs input_file with
  | none => Except.error ("Input file not found: " ++ input_file)
  | some content =>
      let st := convertLines (splitLines content)
      Except.ok
        (fun p => if p = output_file then some (unlines st.1) else fs p,
         st.1.length, st.2.1)

/-- Drop the final `.ext` suffix of a file name (no-op when there is no
dot, or only a leading dot), as `Path.with_suffix` does on a plain name. -/
def dropLastExt (s : String) : String :=
  let pre := s.data.reverse.dropWhile (fun c => !(c == '.'))
  match pre with
  | [] => s
  | _ :: rest => if rest.isEmpty then s else String.mk rest.reverse

/-- The derived output name `Path(input_file).with_suffix('.bbox.txt')`
used when no output argument is given. -/
def bboxOutputName (input : String) : String :=
  dropLastExt input ++ ".bbox.txt"

/-- Single-file mode of `main`: runs `convert_file`; on any raised error
it prints and calls `sys.exit(1)`.  Returns the resulting file system and
the process exit code. -/
def main_single (fs : String → Option String) (input : String)
    (output? : Option String) : (String → Option String) × Nat :=
  let output := output?.getD (bboxOutputName input)
  match convert_file fs input output with
  | Except.ok (fs', _, _) => (fs', 0)
  | Except.error _ => (fs, 1)

/-- Flatten a list of (x, y) vertex pairs into the coordinate token list
`[x1, y1, x2, y2, ...]`. -/
def interleave : List (String × String) → List String
  | [] => []
  | (a, b) :: rest => a :: b :: interleave rest

/-! ### Helper lemmas about `evens`, `odds` and `mapFloat` -/

theorem evens_subset {α} : ∀ (l : List α) (a : α), a ∈ evens l → a ∈ l
  | [], _, h => by simp [evens] at h
  | [_], a, h => by simpa [evens] using h
  | b :: c :: rest, a, h => by
      simp only [evens, List.mem_cons] at h ⊢
      rcases h with rfl | h
      · exact Or.inl rfl
      · exact Or.inr (Or.inr (evens_subset rest a h))

theorem odds_subset {α} : ∀ (l : List α) (a : α), a ∈ odds l → a ∈ l
  | [], _, h => by simp [odds] at h
  | [_], _, h => by simp [odds] at h
  | b :: c :: rest, a, h => by
      simp only [odds, List.mem_cons] at h ⊢
      rcases h with rfl | h
      · exact Or.inr (Or.inl rfl)
      · exact Or.inr (Or.inr (odds_subset rest a h))

theorem mem_evens_or_odds {α} : ∀ (l : List α) (a : α), a ∈ l → a ∈ evens l ∨ a ∈ odds l
  | [], _, h => by simp at h
  | [b], a, h => by
      simp only [List.mem_singleton] at h
      subst h
      exact Or.inl (by simp [evens])
  | b :: c :: rest, a, h => by
      simp only [List.mem_cons] at h
      rcases h with rfl | rfl | h
      · exact Or.inl (by simp [evens])
      · exact Or.inr (by simp [odds])
      · rcases mem_evens_or_odds rest a h with h' | h'
        · exact Or.inl (by simp [evens, h'])
        · exact Or.inr (by simp [odds, h'])

theorem evens_ne_nil {α} (l : List α) (h : l ≠ []) : evens l ≠ [] := by
  match l with
  | [] => exact absurd rfl h
  | [a] => simp [evens]
  | a :: b :: rest => simp [evens]

theorem odds_ne_nil {α} (l : List α) (h : 2 ≤ l.length) : odds l ≠ [] := by
  match l with
  | [] => simp at h
  | [a] => simp at h
  | a :: b :: rest => simp [odds]

theorem getLast?_mem_evens_of_odd {α} :
    ∀ (l : List α), l.length % 2 = 1 → ∃ tl, l.getLast? = some tl ∧ tl ∈ evens l
  | [], h => by simp at h
  | [a], _ => ⟨a, rfl, by simp [evens]⟩
  | a :: b :: rest, h => by
      have hr : rest.length % 2 = 1 := by simp [List.length_cons] at h; omega
      obtain ⟨tl, h1, h2⟩ := getLast?_mem_evens_of_odd rest hr
      have hne : rest ≠ [] := by
        intro hnil; rw [hnil] at hr; simp at hr
      refine ⟨tl, ?_, ?_⟩
      · rw [List.getLast?_cons_cons]
        match rest, hne, h1 with
        | c :: rest', _, h1 => rw [List.getLast?_cons_cons]; exact h1
      · simp [evens, h2]

theorem mapFloat_eq_none_iff (l : List String) :
    mapFloat l = none ↔ ∃ t ∈ l, pyFloat t = none := by
  induction l with
  | nil => simp [mapFloat]
  | cons t rest ih =>
      rcases h : pyFloat t with _ | q
      · simp [mapFloat, h]
      · rcases h2 : mapFloat rest with _ | qs <;>
          simp [mapFloat, h, h2, ← ih]

theorem mapFloat_eq_map (l : List String) (v : List ℚ) (h : mapFloat l = some v) :
    v = l.map (fun t => (pyFloat t).getD 0) := by
  induction l generalizing v with
  | nil => simp [mapFloat] at h; simp [← h]
  | cons t rest ih =>
      rw [mapFloat] at h
      rcases h1 : pyFloat t with _ | q
      · rw [h1] at h; exact absurd h (by simp)
      · rw [h1] at h
        rcases h2 : mapFloat rest with _ | qs
        · rw [h2] at h; exact absurd h (by simp)
        · rw [h2] at h
          obtain rfl : q :: qs = v := by simpa using h
          simp [h1, ih qs h2]

theorem mapFloat_isSome (l : List String) (h : ∀ t ∈ l, (pyFloat t).isSome) :
    ∃ v, mapFloat l = some v := by
  induction l with
  | nil => exact ⟨[], rfl⟩
  | cons t rest ih =>
      obtain ⟨q, hq⟩ := Option.isSome_iff_exists.mp (h t (by simp))
      obtain ⟨qs, hqs⟩ := ih (fun u hu => h u (by simp [hu]))
      exact ⟨q :: qs, by rw [mapFloat, hq, hqs]⟩

theorem mapFloat_length (l : List String) (v : List ℚ) (h : mapFloat l = some v) :
    v.length = l.length := by
  rw [mapFloat_eq_map l v h, List.length_map]

theorem mapFloat_mem (l : List String) (v : List ℚ) (t : String) (q : ℚ)
    (h : mapFloat l = some v) (ht : t ∈ l) (hq : pyFloat t = some q) : q ∈ v := by
  rw [mapFloat_eq_map l v h]
  exact List.mem_map.mpr ⟨t, ht, by simp [hq]⟩

/-! ### Helper lemmas about `listMin` and `listMax` -/

theorem foldl_min_le_init (l : List ℚ) : ∀ a : ℚ, l.foldl min a ≤ a := by
  induction l with
  | nil => intro a; exact le_refl a
  | cons c t ih => intro a; exact le_trans (ih (min a c)) (min_le_left a c)

theorem foldl_min_le_mem (l : List ℚ) : ∀ (a x : ℚ), x ∈ l → l.foldl min a ≤ x := by
  induction l with
  | nil => intro a x hx; cases hx
  | cons c t ih =>
      intro a x hx
      rcases List.mem_cons.mp hx with rfl | hx
      · exact le_trans (foldl_min_le_init t (min a x)) (min_le_right a x)
      · exact ih (min a c) x hx

theorem foldl_min_mem (l : List ℚ) : ∀ a : ℚ, l.foldl min a = a ∨ l.foldl min a ∈ l := by
  induction l with
  | nil => intro a; exact Or.inl rfl
  | cons c t ih =>
      intro a
      rcases ih (min a c) with h | h
      · rcases min_choice a c with h' | h'
        · exact Or.inl (by rw [List.foldl_cons, h, h'])
        · exact Or.inr (by rw [List.foldl_cons, h, h']; exact List.mem_cons_self c t)
      · exact Or.inr (List.mem_cons_of_mem c h)

theorem foldl_max_init_le (l : List ℚ) : ∀ a : ℚ, a ≤ l.foldl max a := by
  induction l with
  | nil => intro a; exact le_refl a
  | cons c t ih => intro a; exact le_trans (le_max_left a c) (ih (max a c))

theorem foldl_max_mem_le (l : List ℚ) : ∀ (a x : ℚ), x ∈ l → x ≤ l.foldl max a := by
  induction l with
  | nil => intro a x hx; cases hx
  | cons c t ih =>
      intro a x hx
      rcases List.mem_cons.mp hx with rfl | hx
      · exact le_trans (le_max_right a x) (foldl_max_init_le t (max a x))
      · exact ih (max a c) x hx

theorem foldl_max_mem (l : List ℚ) : ∀ a : ℚ, l.foldl max a = a ∨ l.foldl max a ∈ l := by
  induction l with
  | nil => intro a; exact Or.inl rfl
  | cons c t ih =>
      intro a
      rcases ih (max a c) with h | h
      · rcases max_choice a c with h' | h'
        · exact Or.inl (by rw [List.foldl_cons, h, h'])
        · exact Or.inr (by rw [List.foldl_cons, h, h']; exact List.mem_cons_self c t)
      · exact Or.inr (List.mem_cons_of_mem c h)

/-- The value `listMin` returns is the least member of the list. -/
theorem listMin_spec (l : List ℚ) (m : ℚ) (h : listMin l = some m) :
    m ∈ l ∧ ∀ x ∈ l, m ≤ x := by
  match l with
  | [] => exact absurd h (by simp [listMin])
  | a :: rest =>
      obtain rfl : rest.foldl min a = m := by simpa [listMin] using h
      constructor
      · rcases foldl_min_mem rest a with h' | h'
        · rw [h']; exact List.mem_cons_self a rest
        · exact List.mem_cons_of_mem a h'
      · intro x hx
        rcases List.mem_cons.mp hx with rfl | hx
        · exact foldl_min_le_init rest x
        · exact foldl_min_le_mem rest a x hx

/-- The value `listMax` returns is the greatest member of the list. -/
theorem listMax_spec (l : List ℚ) (m : ℚ) (h : listMax l = some m) :
    m ∈ l ∧ ∀ x ∈ l, x ≤ m := by
  match l with
  | [] => exact absurd h (by simp [listMax])
  | a :: rest =>
      obtain rfl : rest.foldl max a = m := by simpa [listMax] using h
      constructor
      · rcases foldl_max_mem rest a with h' | h'
        · rw [h']; exact List.mem_cons_self a rest
        · exact List.mem_cons_of_mem a h'
      · intro x hx
        rcases List.mem_cons.mp hx with rfl | hx
        · exact foldl_max_init_le rest x
        · exact foldl_max_mem_le rest a x hx

theorem listMin_isSome (l : List ℚ) (h : l ≠ []) : ∃ m, listMin l = some m := by
  match l with
  | [] => exact absurd rfl h
  | a :: rest => exact ⟨rest.foldl min a, rfl⟩

theorem listMax_isSome (l : List ℚ) (h : l ≠ []) : ∃ m, listMax l = some m := by
  match l with
  | [] => exact absurd rfl h
  | a :: rest => exact ⟨rest.foldl max a, rfl⟩

/-- `listMin` is invariant under permutation of the list. -/
theorem listMin_perm (v w : List ℚ) (h : v.Perm w) : listMin v = listMin w := by
  match v, w with
  | [], w => rw [h.nil_eq]
  | a :: v', [] => exact absurd h.length_eq (by simp)
  | a :: v', b :: w' =>
      obtain ⟨m, hm⟩ := listMin_isSome (a :: v') (by simp)
      obtain ⟨n, hn⟩ := listMin_isSome (b :: w') (by simp)
      obtain ⟨hmem, hlb⟩ := listMin_spec _ m hm
      obtain ⟨hmem', hlb'⟩ := listMin_spec _ n hn
      rw [hm, hn]
      exact congrArg some (le_antisymm (hlb n (h.mem_iff.mpr hmem'))
        (hlb' m (h.mem_iff.mp hmem)))

/-- `listMax` is invariant under permutation of the list. -/
theorem listMax_perm (v w : List ℚ) (h : v.Perm w) : listMax v = listMax w := by
  match v, w with
  | [], w => rw [h.nil_eq]
  | a :: v', [] => exact absurd h.length_eq (by simp)
  | a :: v', b :: w' =>
      obtain ⟨m, hm⟩ := listMax_isSome (a :: v') (by simp)
      obtain ⟨n, hn⟩ := listMax_isSome (b :: w') (by simp)
      obtain ⟨hmem, hub⟩ := listMax_spec _ m hm
      obtain ⟨hmem', hub'⟩ := listMax_spec _ n hn
      rw [hm, hn]
      exact congrArg some (le_antisymm (hub' m (h.mem_iff.mp hmem))
        (hub n (h.mem_iff.mpr hmem')))

/-! ### Stripping a line does not change its whitespace-split tokens -/

theorem pySplitAux_dropWhile (cs : List Char) :
    pySplitAux [] (cs.dropWhile Char.isWhitespace) = pySplitAux [] cs := by
  induction cs with
  | nil => rfl
  | cons c rest ih =>
      by_cases h : c.isWhitespace
      · rw [List.dropWhile_cons_of_pos h, ih]
        simp [pySplitAux, h]
      · rw [List.dropWhile_cons_of_neg h]

theorem pySplitAux_all_ws (w : List Char) (hw : ∀ c ∈ w, c.isWhitespace) :
    ∀ cur, pySplitAux cur w = pySplitAux cur [] := by
  induction w with
  | nil => intro cur; rfl
  | cons c rest ih =>
      intro cur
      have hc : c.isWhitespace := hw c (by simp)
      have hrest : ∀ x ∈ rest, x.isWhitespace := fun x hx => hw x (by simp [hx])
      by_cases hcur : cur.isEmpty <;>
        simp [pySplitAux, hc, hcur, ih hrest []]

theorem pySplitAux_append_ws (w : List Char) (hw : ∀ c ∈ w, c.isWhitespace) :
    ∀ (m cur : List Char), pySplitAux cur (m ++ w) = pySplitAux cur m := by
  intro m
  induction m with
  | nil => intro cur; rw [List.nil_append]; exact pySplitAux_all_ws w hw cur
  | cons c rest ih =>
      intro cur
      by_cases h : c.isWhitespace <;> by_cases hcur : cur.isEmpty <;>
        simp [pySplitAux, h, hcur, ih]

/-- Python's `line.strip().split()` equals `line.split()`. -/
theorem pySplit_pyStrip (s : String) : pySplit (pyStrip s) = pySplit s := by
  show pySplitAux [] (String.mk (stripList s.data)).data = pySplitAux [] s.data
  show pySplitAux [] (stripList s.data) = pySplitAux [] s.data
  unfold stripList
  set l := s.data.dropWhile Char.isWhitespace with hl
  have hdecomp : l = (l.reverse.dropWhile Char.isWhitespace).reverse
      ++ (l.reverse.takeWhile Char.isWhitespace).reverse := by
    conv_lhs => rw [← List.reverse_reverse l,
      ← List.takeWhile_append_dropWhile (p := Char.isWhitespace) (l := l.reverse)]
    rw [List.reverse_append]
  have hw : ∀ c ∈ (l.reverse.takeWhile Char.isWhitespace).reverse, c.isWhitespace := by
    intro c hc
    exact List.mem_takeWhile_imp (List.mem_reverse.mp hc)
  calc pySplitAux [] (l.reverse.dropWhile Char.isWhitespace).reverse
      = pySplitAux [] ((l.reverse.dropWhile Char.isWhitespace).reverse
          ++ (l.reverse.takeWhile Char.isWhitespace).reverse) :=
        (pySplitAux_append_ws _ hw _ []).symm
    _ = pySplitAux [] l := by rw [← hdecomp]
    _ = pySplitAux [] s.data := pySplitAux_dropWhile s.data

/-! ### Interleaving vertex pairs -/

theorem evens_interleave : ∀ ps : List (String × String),
    evens (interleave ps) = ps.map Prod.fst
  | [] => rfl
  | (a, b) :: rest => by
      match rest, evens_interleave rest with
      | [], _ => simp [interleave, evens]
      | (c, d) :: rest', ih => simp [interleave, evens] at ih ⊢; exact ih

theorem odds_interleave : ∀ ps : List (String × String),
    odds (interleave ps) = ps.map Prod.snd
  | [] => rfl
  | (a, b) :: rest => by
      match rest, odds_interleave rest with
      | [], _ => simp [interleave, odds]
      | (c, d) :: rest', ih => simp [interleave, odds] at ih ⊢; exact ih

theorem interleave_length : ∀ ps : List (String × String),
    (interleave ps).length = 2 * ps.length
  | [] => rfl
  | (a, b) :: rest => by simp [interleave, interleave_length rest]; omega

/-! ### Inversion and characterisation of `polygon_to_bbox` -/

/-- Inverting a successful run of the reducer. -/
theorem polygon_to_bbox_inv (l : List String) (b : ℚ × ℚ × ℚ × ℚ)
    (h : polygon_to_bbox l = some b) :
    ∃ xs ys mnx mxx mny mxy,
      mapFloat (evens l) = some xs ∧ mapFloat (odds l) = some ys ∧
      listMin xs = some mnx ∧ listMax xs = some mxx ∧
      listMin ys = some mny ∧ listMax ys = some mxy ∧
      b = ((mnx + mxx) / 2, (mny + mxy) / 2, mxx - mnx, mxy - mny) := by
  by_cases h6 : l.length < 6
  · rw [polygon_to_bbox, if_pos h6] at h; cases h
  · rw [polygon_to_bbox, if_neg h6] at h
    rcases hxs : mapFloat (evens l) with _ | xs <;> rw [hxs] at h
    · cases h
    · rcases hys : mapFloat (odds l) with _ | ys <;> rw [hys] at h
      · cases h
      · have h' : (match listMin xs, listMax xs, listMin ys, listMax ys with
            | some min_x, some max_x, some min_y, some max_y =>
                some ((min_x + max_x) / 2, (min_y + max_y) / 2,
                      max_x - min_x, max_y - min_y)
            | _, _, _, _ => none) = some b := h
        clear h
        rcases hmnx : listMin xs with _ | mnx <;> rw [hmnx] at h'
        · exact absurd h' (by simp)
        · rcases hmxx : listMax xs with _ | mxx <;> rw [hmxx] at h'
          · exact absurd h' (by simp)
          · rcases hmny : listMin ys with _ | mny <;> rw [hmny] at h'
            · exact absurd h' (by simp)
            · rcases hmxy : listMax ys with _ | mxy <;> rw [hmxy] at h'
              · exact absurd h' (by simp)
              · exact ⟨xs, ys, mnx, mxx, mny, mxy, rfl, rfl, hmnx, hmxx, hmny, hmxy,
                  (Option.some_inj.mp h').symm⟩

/-- A successful run of the reducer on an all-numeric coordinate list of
length at least 6, together with where its four extrema come from. -/
theorem polygon_to_bbox_minmax (l : List String) (h6 : 6 ≤ l.length)
    (hnum : ∀ t ∈ l, (pyFloat t).isSome) :
    ∃ xs ys mnx mxx mny mxy,
      mapFloat (evens l) = some xs ∧ mapFloat (odds l) = some ys ∧
      listMin xs = some mnx ∧ listMax xs = some mxx ∧
      listMin ys = some mny ∧ listMax ys = some mxy ∧
      polygon_to_bbox l = some ((mnx + mxx) / 2, (mny + mxy) / 2,
        mxx - mnx, mxy - mny) := by
  have hlne : l ≠ [] := by intro hh; rw [hh] at h6; simp at h6
  obtain ⟨xs, hxs⟩ := mapFloat_isSome (evens l)
    (fun t ht => hnum t (evens_subset l t ht))
  obtain ⟨ys, hys⟩ := mapFloat_isSome (odds l)
    (fun t ht => hnum t (odds_subset l t ht))
  have hxs_ne : xs ≠ [] := by
    intro h0
    apply evens_ne_nil l hlne
    have hlen := mapFloat_length _ _ hxs
    rw [h0] at hlen
    exact List.length_eq_zero.mp hlen.symm
  have hys_ne : ys ≠ [] := by
    intro h0
    apply odds_ne_nil l (by omega)
    have hlen := mapFloat_length _ _ hys
    rw [h0] at hlen
    exact List.length_eq_zero.mp hlen.symm
  obtain ⟨mnx, hmnx⟩ := listMin_isSome xs hxs_ne
  obtain ⟨mxx, hmxx⟩ := listMax_isSome xs hxs_ne
  obtain ⟨mny, hmny⟩ := listMin_isSome ys hys_ne
  obtain ⟨mxy, hmxy⟩ := listMax_isSome ys hys_ne
  refine ⟨xs, ys, mnx, mxx, mny, mxy, hxs, hys, hmnx, hmxx, hmny, hmxy, ?_⟩
  rw [polygon_to_bbox, if_neg (by omega)]
  simp only [hxs, hys, hmnx, hmxx, hmny, hmxy]

theorem mapFloat_perm_none (l₁ l₂ : List String) (hp : l₁.Perm l₂)
    (h : mapFloat l₁ = none) : mapFloat l₂ = none := by
  rw [mapFloat_eq_none_iff] at h ⊢
  obtain ⟨t, ht, hn⟩ := h
  exact ⟨t, hp.mem_iff.mp ht, hn⟩

theorem mapFloat_perm_some (l₁ l₂ : List String) (hp : l₁.Perm l₂) (v₁ : List ℚ)
    (h : mapFloat l₁ = some v₁) : ∃ v₂, mapFloat l₂ = some v₂ ∧ v₁.Perm v₂ := by
  rcases h2 : mapFloat l₂ with _ | v₂
  · rw [mapFloat_perm_none l₂ l₁ hp.symm h2] at h; cases h
  · refine ⟨v₂, rfl, ?_⟩
    rw [mapFloat_eq_map _ _ h, mapFloat_eq_map _ _ h2]
    exact hp.map _

theorem polygon_to_bbox_of_bad_token (l : List String) (h6 : 6 ≤ l.length)
    (hbad : ∃ t ∈ l, pyFloat t = none) : polygon_to_bbox l = none := by
  obtain ⟨t, ht, hn⟩ := hbad
  rw [polygon_to_bbox, if_neg (by omega)]
  rcases mem_evens_or_odds l t ht with h' | h'
  · have hx : mapFloat (evens l) = none := (mapFloat_eq_none_iff _).mpr ⟨t, h', hn⟩
    simp only [hx]
  · rcases hxs : mapFloat (evens l) with _ | xs
    · simp only []
    · have hy : mapFloat (odds l) = none := (mapFloat_eq_none_iff _).mpr ⟨t, h', hn⟩
      simp only [hy]

/-! ### Claim theorems -/

/-- C1: for every flattened coordinate list with at least 6 numeric values,
the reducer `polygon_to_bbox` returns exactly
`(center_x, center_y, width, height)` where `min_x` / `max_x` are the
minimum / maximum over the even-indexed (x) values and `min_y` / `max_y`
over the odd-indexed (y) values, `center_x = (min_x + max_x) / 2`,
`center_y = (min_y + max_y) / 2`, `width = max_x - min_x`,
`height = max_y - min_y`. -/
theorem polygon_to_bbox_even_odd_extent (l : List String)
    (h6 : 6 ≤ l.length) (hnum : ∀ t ∈ l, (pyFloat t).isSome) :
    ∃ xs ys min_x max_x min_y max_y,
      mapFloat (evens l) = some xs ∧ mapFloat (odds l) = some ys ∧
      (min_x ∈ xs ∧ ∀ x ∈ xs, min_x ≤ x) ∧
      (max_x ∈ xs ∧ ∀ x ∈ xs, x ≤ max_x) ∧
      (min_y ∈ ys ∧ ∀ y ∈ ys, min_y ≤ y) ∧
      (max_y ∈ ys ∧ ∀ y ∈ ys, y ≤ max_y) ∧
      polygon_to_bbox l = some ((min_x + max_x) / 2, (min_y + max_y) / 2,
        max_x - min_x, max_y - min_y) := by
  obtain ⟨xs, ys, mnx, mxx, mny, mxy, hxs, hys, hmnx, hmxx, hmny, hmxy, hres⟩ :=
    polygon_to_bbox_minmax l h6 hnum
  exact ⟨xs, ys, mnx, mxx, mny, mxy, hxs, hys,
    listMin_spec xs mnx hmnx, listMax_spec xs mxx hmxx,
    listMin_spec ys mny hmny, listMax_spec ys mxy hmxy, hres⟩

/-- Witness for C1 at the 3-vertex polygon (0,0), (1,0), (1,1). -/
theorem polygon_to_bbox_even_odd_extent_witness :
    (6 ≤ (["0", "0", "1", "0", "1", "1"] : List String).length) ∧
    (∀ t ∈ (["0", "0", "1", "0", "1", "1"] : List String), (pyFloat t).isSome) ∧
    (∃ xs ys min_x max_x min_y max_y,
      mapFloat (evens ["0", "0", "1", "0", "1", "1"]) = some xs ∧
      mapFloat (odds ["0", "0", "1", "0", "1", "1"]) = some ys ∧
      (min_x ∈ xs ∧ ∀ x ∈ xs, min_x ≤ x) ∧
      (max_x ∈ xs ∧ ∀ x ∈ xs, x ≤ max_x) ∧
      (min_y ∈ ys ∧ ∀ y ∈ ys, min_y ≤ y) ∧
      (max_y ∈ ys ∧ ∀ y ∈ ys, y ≤ max_y) ∧
      polygon_to_bbox ["0", "0", "1", "0", "1", "1"] =
        some ((min_x + max_x) / 2, (min_y + max_y) / 2,
          max_x - min_x, max_y - min_y)) :=
  ⟨by decide, by decide,
    polygon_to_bbox_even_odd_extent ["0", "0", "1", "0", "1", "1"]
      (by decide) (by decide)⟩

/-- C4: for every list of at least 3 vertex pairs and every permutation of
it, the reducer returns an identical bounding box on the flattened
coordinate lists. -/
theorem polygon_to_bbox_perm_invariant (ps qs : List (String × String))
    (hperm : ps.Perm qs) (h3 : 3 ≤ ps.length) :
    polygon_to_bbox (interleave ps) = polygon_to_bbox (interleave qs) := by
  have hlen : ps.length = qs.length := hperm.length_eq
  have hL1 : (interleave ps).length = 2 * ps.length := interleave_length ps
  have hL2 : (interleave qs).length = 2 * qs.length := interleave_length qs
  rw [polygon_to_bbox, polygon_to_bbox, if_neg (by omega), if_neg (by omega),
    evens_interleave, odds_interleave, evens_interleave, odds_interleave]
  have hx : (ps.map Prod.fst).Perm (qs.map Prod.fst) := hperm.map _
  have hy : (ps.map Prod.snd).Perm (qs.map Prod.snd) := hperm.map _
  rcases hxs : mapFloat (ps.map Prod.fst) with _ | xs
  · rw [mapFloat_perm_none _ _ hx hxs]
  · obtain ⟨xs', hxs2, hxp⟩ := mapFloat_perm_some _ _ hx xs hxs
    rw [hxs2]
    rcases hys : mapFloat (ps.map Prod.snd) with _ | ys
    · rw [mapFloat_perm_none _ _ hy hys]
    · obtain ⟨ys', hys2, hyp⟩ := mapFloat_perm_some _ _ hy ys hys
      rw [hys2]
      show (match listMin xs, listMax xs, listMin ys, listMax ys with
            | some min_x, some max_x, some min_y, some max_y =>
                some ((min_x + max_x) / 2, (min_y + max_y) / 2,
                      max_x - min_x, max_y - min_y)
            | _, _, _, _ => none) =
          (match listMin xs', listMax xs', listMin ys', listMax ys' with
            | some min_x, some max_x, some min_y, some max_y =>
                some ((min_x + max_x) / 2, (min_y + max_y) / 2,
                      max_x - min_x, max_y - min_y)
            | _, _, _, _ => none)
      rw [listMin_perm xs xs' hxp, listMax_perm xs xs' hxp,
        listMin_perm ys ys' hyp, listMax_perm ys ys' hyp]

/-- Witness for C4: swapping the first two vertices of a triangle. -/
theorem polygon_to_bbox_perm_invariant_witness :
    polygon_to_bbox (interleave [("0", "0"), ("1", "0"), ("1", "1")]) =
    polygon_to_bbox (interleave [("1", "0"), ("0", "0"), ("1", "1")]) :=
  polygon_to_bbox_perm_invariant _ _
    (List.Perm.swap ("1", "0") ("0", "0") [("1", "1")]) (by decide)

/-- C6: whenever the reducer returns a bounding box, its width and height
are both greater than or equal to 0. -/
theorem polygon_to_bbox_dims_nonneg (l : List String) (cx cy w h : ℚ)
    (hres : polygon_to_bbox l = some (cx, cy, w, h)) : 0 ≤ w ∧ 0 ≤ h := by
  obtain ⟨xs, ys, mnx, mxx, mny, mxy, hxs, hys, hmnx, hmxx, hmny, hmxy, heq⟩ :=
    polygon_to_bbox_inv l (cx, cy, w, h) hres
  obtain ⟨hxmem, -⟩ := listMin_spec xs mnx hmnx
  obtain ⟨-, hxub⟩ := listMax_spec xs mxx hmxx
  obtain ⟨hymem, -⟩ := listMin_spec ys mny hmny
  obtain ⟨-, hyub⟩ := listMax_spec ys mxy hmxy
  have h1 : mnx ≤ mxx := hxub mnx hxmem
  have h2 : mny ≤ mxy := hyub mny hymem
  have hw : w = mxx - mnx := congrArg (fun p => p.2.2.1) heq
  have hh : h = mxy - mny := congrArg (fun p => p.2.2.2) heq
  exact ⟨hw ▸ sub_nonneg.mpr h1, hh ▸ sub_nonneg.mpr h2⟩

/-- Concrete run of the reducer on the triangle (0,0), (1,0), (1,1). -/
theorem polygon_to_bbox_triangle_eval :
    polygon_to_bbox ["0", "0", "1", "0", "1", "1"] =
      some (1 / 2, 1 / 2, 1, 1) := by
  simp [polygon_to_bbox, evens, odds, mapFloat, pyFloat, parseMantissa, stripSign,
    allDigits, natOfDigits, Char.isDigit, listMin, listMax]

/-- Witness for C6 on the triangle (0,0), (1,0), (1,1). -/
theorem polygon_to_bbox_dims_nonneg_witness :
    polygon_to_bbox ["0", "0", "1", "0", "1", "1"] = some (1 / 2, 1 / 2, 1, 1) ∧
    (0 ≤ (1 : ℚ) ∧ 0 ≤ (1 : ℚ)) :=
  ⟨polygon_to_bbox_triangle_eval,
    polygon_to_bbox_dims_nonneg ["0", "0", "1", "0", "1", "1"] (1 / 2) (1 / 2) 1 1
      polygon_to_bbox_triangle_eval⟩

/-- C7: the reducer rejects every coordinate list of fewer than 6 values
(it raises, modelled by `none`, and computes nothing). -/
theorem polygon_to_bbox_too_few (l : List String) (h : l.length < 6) :
    polygon_to_bbox l = none := by
  rw [polygon_to_bbox, if_pos h]

/-- Witness for C7 on a 1-vertex list. -/
theorem polygon_to_bbox_too_few_witness :
    (["0", "0"] : List String).length < 6 ∧ polygon_to_bbox ["0", "0"] = none :=
  ⟨by decide, polygon_to_bbox_too_few ["0", "0"] (by decide)⟩

/-- C10: for every coordinate token list of length at least 6 containing a
token that does not parse as a real number, the reducer itself returns the
`ValueError` signal (`none`), and `process_line` on any line carrying those
coordinate tokens turns it into the skip signal `none`. -/
theorem polygon_to_bbox_bad_token_skip (l : List String)
    (h6 : 6 ≤ l.length) (hbad : ∃ t ∈ l, pyFloat t = none) :
    polygon_to_bbox l = none ∧
    ∀ line cid, pySplit line = cid :: l → process_line line = none := by
  have hb := polygon_to_bbox_of_bad_token l h6 hbad
  refine ⟨hb, fun line cid hsplit => ?_⟩
  have hps : pySplit (pyStrip line) = cid :: l := by rw [pySplit_pyStrip, hsplit]
  simp only [process_line, hps]
  rw [if_neg (by simp only [List.length_cons]; omega)]
  simp only [hb]

/-- Witness for C10: the token `"x"` is not numeric. -/
theorem polygon_to_bbox_bad_token_skip_witness :
    polygon_to_bbox ["x", "0", "0", "1", "1", "2"] = none ∧
    process_line "9 x 0 0 1 1 2" = none :=
  ⟨(polygon_to_bbox_bad_token_skip ["x", "0", "0", "1", "1", "2"]
      (by decide) (by decide)).1,
   (polygon_to_bbox_bad_token_skip ["x", "0", "0", "1", "1", "2"]
      (by decide) (by decide)).2 "9 x 0 0 1 1 2" "9" (by decide)⟩

/-- C3: `process_line` returns the skip signal `none` on every line with
fewer than 7 whitespace-separated tokens, and on every line one of whose
coordinate tokens (the tokens after the first) does not parse as a real
number. -/
theorem process_line_skips_invalid (line : String)
    (h : (pySplit line).length < 7 ∨
      ∃ t ∈ (pySplit line).drop 1, pyFloat t = none) :
    process_line line = none := by
  have hps : pySplit (pyStrip line) = pySplit line := pySplit_pyStrip line
  rcases h with h | h
  · simp only [process_line, hps]
    rw [if_pos h]
  · rcases hsp : pySplit line with _ | ⟨cid, coords⟩
    · simp only [process_line, hps, hsp, List.length_nil]
      rw [if_pos (by omega)]
    · rw [hsp] at h
      simp only [List.drop_succ_cons, List.drop_zero] at h
      by_cases h7 : (cid :: coords).length < 7
      · simp only [process_line, hps, hsp]
        rw [if_pos h7]
      · have hb : polygon_to_bbox coords = none :=
          polygon_to_bbox_of_bad_token coords
            (by simp only [List.length_cons] at h7; omega) h
        simp only [process_line, hps, hsp]
        rw [if_neg h7]
        simp only [hb]

/-- Witness for C3 on a 3-token line. -/
theorem process_line_skips_invalid_witness :
    (pySplit "0 1 2").length < 7 ∧ process_line "0 1 2" = none :=
  ⟨by decide, process_line_skips_invalid "0 1 2" (Or.inl (by decide))⟩

/-- C5: transcoding the line `"0 0.1 0.1 0.2 0.1 0.2 0.2 0.1 0.2"` succeeds
and yields exactly `"0 0.150000 0.150000 0.100000 0.100000"`, each numeric
field carrying six digits after the decimal point. -/
theorem process_line_unit_square :
    process_line "0 0.1 0.1 0.2 0.1 0.2 0.2 0.1 0.2" =
      some "0 0.150000 0.150000 0.100000 0.100000" := by
  simp [process_line, pySplit, pySplitAux, pyStrip, stripList, Char.isWhitespace,
    polygon_to_bbox, evens, odds, mapFloat, pyFloat, parseMantissa, stripSign,
    allDigits, natOfDigits, Char.isDigit, listMin, listMax]
  norm_num [inf_eq_min, sup_eq_max, min_def, max_def]
  norm_num [formatRecord, fmt6, round6, abs_of_nonneg]
  decide

/-- Counterexample to C2 as stated: on the validated line
`"0 0 0 1 1 0 1 9"`, whose 7 coordinate tokens are all numeric and
odd in number, the final unpaired token `9` is read (as an x-coordinate:
the output has width 9), so the transcoded output differs from the output
for the same line with that last token removed. -/
theorem process_line_odd_drop_counterexample :
    process_line "0 0 0 1 1 0 1 9" = some "0 4.500000 0.500000 9.000000 1.000000" ∧
    process_line "0 0 0 1 1 0 1" = some "0 0.500000 0.500000 1.000000 1.000000" ∧
    process_line "0 0 0 1 1 0 1 9" ≠ process_line "0 0 0 1 1 0 1" := by
  refine ⟨?_, ?_, ?_⟩ <;>
  · simp [process_line, pySplit, pySplitAux, pyStrip, stripList, Char.isWhitespace,
      polygon_to_bbox, evens, odds, mapFloat, pyFloat, parseMantissa, stripSign,
      allDigits, natOfDigits, Char.isDigit, listMin, listMax]
    norm_num [inf_eq_min, sup_eq_max, min_def, max_def]
    norm_num [formatRecord, fmt6, round6, abs_of_nonneg]
    decide

/-- C2 (amended): on a validated line with an odd number of numeric
coordinate tokens, the final unpaired token is not dropped but read as an
additional x-coordinate — it is among the even-indexed tokens, its value
enters the x-extent computation, and transcoding succeeds with the
bounding box over the even-indexed (x) and odd-indexed (y) tokens. -/
theorem process_line_odd_last_token_read_as_x (line : String)
    (h7 : 7 ≤ (pySplit line).length)
    (hodd : ((pySplit line).drop 1).length % 2 = 1)
    (hnum : ∀ t ∈ (pySplit line).drop 1, (pyFloat t).isSome) :
    ∃ cid coords tl q xs b,
      pySplit line = cid :: coords ∧
      coords.getLast? = some tl ∧ tl ∈ evens coords ∧
      pyFloat tl = some q ∧
      mapFloat (evens coords) = some xs ∧ q ∈ xs ∧
      polygon_to_bbox coords = some b ∧
      process_line line = some (formatRecord cid b) := by
  rcases hsp : pySplit line with _ | ⟨cid, coords⟩
  · rw [hsp] at h7; simp at h7
  · rw [hsp] at h7 hodd hnum
    simp only [List.drop_succ_cons, List.drop_zero] at hodd hnum
    have h6 : 6 ≤ coords.length := by
      simp only [List.length_cons] at h7; omega
    obtain ⟨xs, ys, mnx, mxx, mny, mxy, hxs, hys, hmnx, hmxx, hmny, hmxy, hres⟩ :=
      polygon_to_bbox_minmax coords h6 hnum
    obtain ⟨tl, htl, htlmem⟩ := getLast?_mem_evens_of_odd coords hodd
    obtain ⟨q, hq⟩ := Option.isSome_iff_exists.mp
      (hnum tl (evens_subset coords tl htlmem))
    refine ⟨cid, coords, tl, q, xs, _, rfl, htl, htlmem, hq,
      hxs, mapFloat_mem _ _ _ _ hxs htlmem hq, hres, ?_⟩
    have hps : pySplit (pyStrip line) = cid :: coords := by
      rw [pySplit_pyStrip, hsp]
    simp only [process_line, hps]
    rw [if_neg (by simp only [List.length_cons]; omega)]
    simp only [hres]

/-- Witness for the amended C2 on the line `"0 0 0 1 1 0 1 9"`. -/
theorem process_line_odd_last_token_read_as_x_witness :
    (7 ≤ (pySplit "0 0 0 1 1 0 1 9").length) ∧
    (((pySplit "0 0 0 1 1 0 1 9").drop 1).length % 2 = 1) ∧
    (∃ cid coords tl q xs b,
      pySplit "0 0 0 1 1 0 1 9" = cid :: coords ∧
      coords.getLast? = some tl ∧ tl ∈ evens coords ∧
      pyFloat tl = some q ∧
      mapFloat (evens coords) = some xs ∧ q ∈ xs ∧
      polygon_to_bbox coords = some b ∧
      process_line "0 0 0 1 1 0 1 9" = some (formatRecord cid b)) :=
  ⟨by decide, by decide,
    process_line_odd_last_token_read_as_x "0 0 0 1 1 0 1 9"
      (by decide) (by decide) (by decide)⟩

/-- One loop step of `convert_file` leaves its state unchanged on a
whitespace-only line. -/
theorem convertStep_blank (st : List String × Nat × Nat) (bl : String)
    (h : ∀ c ∈ bl.data, c.isWhitespace) : convertStep st bl = st := by
  have hnil : stripList bl.data = [] := by
    unfold stripList
    rw [List.dropWhile_eq_nil_iff.mpr h]
    rfl
  have hempty : (pyStrip bl).isEmpty = true := by
    show (String.mk (stripList bl.data)).isEmpty = true
    rw [hnil]
    rfl
  unfold convertStep
  rw [if_pos hempty]

/-- C8: a line that is empty or consists only of whitespace contributes no
output record, no skip-count increment and no warning diagnostic: deleting
it from the input leaves the whole conversion state unchanged. -/
theorem convertLines_blank_silent (bl : String)
    (h : ∀ c ∈ bl.data, c.isWhitespace) (xs ys : List String) :
    convertLines (xs ++ bl :: ys) = convertLines (xs ++ ys) := by
  unfold convertLines
  rw [List.foldl_append, List.foldl_append, List.foldl_cons,
    convertStep_blank _ bl h]

/-- Witness for C8: a whitespace-only line between two others. -/
theorem convertLines_blank_silent_witness :
    convertLines (["0 0 0 1 1 0 1"] ++ "  " :: ["0 1"]) =
      convertLines (["0 0 0 1 1 0 1"] ++ ["0 1"]) :=
  convertLines_blank_silent "  " (by decide) ["0 0 0 1 1 0 1"] ["0 1"]

/-- C9: when the input file does not exist, `convert_file` fails with the
`FileNotFoundError` signal, single-file `main` exits with status 1, and
the file system is unchanged (no output file is written). -/
theorem main_single_missing_input (fs : String → Option String) (input : String)
    (output? : Option String) (h : fs input = none) :
    convert_file fs input (output?.getD (bboxOutputName input)) =
      Except.error ("Input file not found: " ++ input) ∧
    main_single fs input output? = (fs, 1) := by
  have hc : convert_file fs input (output?.getD (bboxOutputName input)) =
      Except.error ("Input file not found: " ++ input) := by
    unfold convert_file
    rw [h]
  exact ⟨hc, by simp only [main_single, hc]⟩

/-- Witness for C9 on an empty file system. -/
theorem main_single_missing_input_witness :
    convert_file (fun _ => none) "labels.txt"
        ((none : Option String).getD (bboxOutputName "labels.txt")) =
      Except.error ("Input file not found: " ++ "labels.txt") ∧
    main_single (fun _ => none) "labels.txt" none = ((fun _ => none), 1) :=
  main_single_missing_input (fun _ => none) "labels.txt" none rfl

end PolyBBox
